import Mathlib

/-!
Verification of the incremental build graph ("Asset") engine and the
watch-and-serve loop of the site builder.

The definitions below are shallow embeddings of the Rust source in
`src/builder/src` (the modules actually compiled into the binary:
`main.rs` declares `mod util`, so the live asset engine is
`src/builder/src/util/asset.rs`; the top-level `asset.rs` is an older
revision that is not part of the build).  Machine timestamps
(`std::time::SystemTime`) are modelled as `Nat`; byte strings as
`List Nat`; filesystem paths as lists of components (`List (List Nat)`).
-/

/-- `Modified` from `util/asset.rs`:
`enum Modified { Never, At(SystemTime) }` with
`derive(PartialEq, Eq, PartialOrd, Ord)`, so `Never` sorts before every
`At`, and `At` values compare by their timestamp. -/
inductive Modified where
  | Never : Modified
  | At : Nat → Modified
deriving DecidableEq, Repr

/-- The derived total order on `Modified` (variant order first, then the
timestamp inside `At`). -/
def Modified.le : Modified → Modified → Prop
  | .Never, _ => True
  | .At _, .Never => False
  | .At t1, .At t2 => t1 ≤ t2

instance : LE Modified := ⟨Modified.le⟩

/-- The derived strict order on `Modified`. -/
def Modified.lt : Modified → Modified → Prop
  | .Never, .Never => False
  | .Never, .At _ => True
  | .At _, .Never => False
  | .At t1, .At t2 => t1 < t2

instance : LT Modified := ⟨Modified.lt⟩

instance : ∀ a b : Modified, Decidable (a ≤ b)
  | .Never, _ => .isTrue trivial
  | .At _, .Never => .isFalse id
  | .At t1, .At t2 => inferInstanceAs (Decidable (t1 ≤ t2))

instance : ∀ a b : Modified, Decidable (a < b)
  | .Never, .Never => .isFalse id
  | .Never, .At _ => .isTrue trivial
  | .At _, .Never => .isFalse id
  | .At t1, .At t2 => inferInstanceAs (Decidable (t1 < t2))

/-- `Ord::max` on `Modified`: returns the second argument unless the first
is strictly greater (Rust's `max_by` returns `other` when `cmp` is not
`Greater`). -/
def Modified.max (a b : Modified) : Modified :=
  if a ≤ b then b else a

theorem Modified.le_unfold (a b : Modified) : (a ≤ b) = Modified.le a b := rfl

theorem Modified.lt_unfold (a b : Modified) : (a < b) = Modified.lt a b := rfl

theorem Modified.never_le (b : Modified) : Modified.Never ≤ b := trivial

theorem Modified.le_total (a b : Modified) : a ≤ b ∨ b ≤ a := by
  cases a <;> cases b <;>
    simp [Modified.le_unfold, Modified.le] <;> omega

theorem Modified.not_le {a b : Modified} : ¬ a ≤ b ↔ b < a := by
  cases a <;> cases b <;>
    simp [Modified.le_unfold, Modified.lt_unfold, Modified.le, Modified.lt]

theorem Modified.le_refl (a : Modified) : a ≤ a := by
  cases a <;> simp [Modified.le_unfold, Modified.le]

theorem Modified.le_antisymm {a b : Modified} (h1 : a ≤ b) (h2 : b ≤ a) : a = b := by
  cases a <;> cases b <;>
    simp_all [Modified.le_unfold, Modified.le] <;> omega

theorem Modified.le_trans {a b c : Modified} (h1 : a ≤ b) (h2 : b ≤ c) : a ≤ c := by
  cases a <;> cases b <;> cases c <;>
    simp_all [Modified.le_unfold, Modified.le] <;> omega

theorem Modified.lt_iff {a b : Modified} : a < b ↔ a ≤ b ∧ ¬ b ≤ a := by
  cases a <;> cases b <;>
    simp [Modified.le_unfold, Modified.lt_unfold, Modified.le, Modified.lt] <;> omega

theorem Modified.le_max_left (a b : Modified) : a ≤ Modified.max a b := by
  unfold Modified.max
  split
  · assumption
  · exact Modified.le_refl a

theorem Modified.le_max_right (a b : Modified) : b ≤ Modified.max a b := by
  unfold Modified.max
  split
  · exact Modified.le_refl b
  · rcases Modified.le_total a b with h | h
    · contradiction
    · exact h

theorem Modified.max_choice (a b : Modified) :
    Modified.max a b = a ∨ Modified.max a b = b := by
  unfold Modified.max
  split <;> simp

theorem Modified.max_never_left (x : Modified) : Modified.max Modified.Never x = x := by
  unfold Modified.max
  split
  · rfl
  · exact absurd trivial (by assumption)

theorem Modified.max_never_right (x : Modified) : Modified.max x Modified.Never = x := by
  cases x <;> simp [Modified.max, Modified.le_unfold, Modified.le]

/-! ## The Asset trait

The Rust trait
`trait Asset { type Output; fn modified(&self) -> Modified; fn generate(&self) -> Self::Output; }`
is embedded as a record of two state-passing functions over an explicit
state type `σ` (the asset's interior-mutable cells plus whatever part of
the outside world it observes).  `modified` also returns a state because
Rust's `&self` methods may mutate through interior mutability — and
`Flatten::modified` really does call `generate` on its child, which can
update `Cache` cells inside the child. -/

structure Asset (σ : Type) (α : Type) where
  modified : σ → Modified × σ
  generate : σ → α × σ

/-- `Cache` from `util/asset.rs`.  Its state is the child's state paired
with the `Cell<Option<(Modified, A::Output)>>` cache cell.

`generate` mirrors

```
let inner_modified = self.asset.modified();
let (last_modified, output) = self.cached.take()
    .filter(|&(last_modified, _)| last_modified >= inner_modified)
    .unwrap_or_else(|| (inner_modified, self.asset.generate()));
self.cached.set(Some((last_modified, output.clone())));
output
```

(the `take`/`filter`/`unwrap_or_else` chain is written as a match on the
cell: a populated cell with `last_modified >= inner_modified` is a hit;
an empty or stale cell falls through to `asset.generate()`; `clone` is
the identity on pure values). -/
def Cache (a : Asset σ α) : Asset (σ × Option (Modified × α)) α where
  modified := fun sc =>
    let ms := a.modified sc.1
    (ms.1, (ms.2, sc.2))
  generate := fun sc =>
    let ms := a.modified sc.1
    match sc.2 with
    | some lo =>
      if ms.1 ≤ lo.1 then
        (lo.2, (ms.2, some (lo.1, lo.2)))
      else
        let g := a.generate ms.2
        (g.1, (g.2, some (ms.1, g.1)))
    | none =>
      let g := a.generate ms.2
      (g.1, (g.2, some (ms.1, g.1)))

/-- `Flatten` from `util/asset.rs`: wraps an asset whose output is itself
an asset.

```
fn modified(&self) -> Modified {
    Ord::max(self.asset.modified(), self.asset.generate().modified())
}
fn generate(&self) -> Self::Output { self.asset.generate().generate() }
```

Rust evaluates `Ord::max`'s arguments left to right, so the outer
`modified` runs first, then the outer `generate`, then the inner
`modified`. -/
def Flatten (a : Asset σ (Asset σ β)) : Asset σ β where
  modified := fun s =>
    let m1 := a.modified s
    let g := a.generate m1.2
    let m2 := g.1.modified g.2
    (Modified.max m1.1 m2.1, m2.2)
  generate := fun s =>
    let g := a.generate s
    g.1.generate g.2

/-! ## ModifiesPath

`ModifiesPath` wraps an `Asset<Output = ()>` whose `generate()` writes a
given output path.  Its world is the output path's mtime (`none` when
the path is absent), the current wall-clock time (used to stamp a fresh
write) and an instrumentation counter of performed writes. -/

structure MPWorld where
  outMtime : Option Nat
  now : Nat
  writes : Nat
deriving DecidableEq, Repr

/-- `Modified::path(&self.path).unwrap_or(Modified::Never)` — the output
path's mtime, `Never` when the path is absent. -/
def pathModified (o : Option Nat) : Modified :=
  match o with
  | some t => Modified.At t
  | none => Modified.Never

/-- `ModifiesPath::generate` from `util/asset.rs`:

```
let output_modified = self.modified();
if self.asset.modified() >= output_modified || *EXE_MODIFIED >= output_modified {
    self.asset.generate();
}
```

`childModified` is the wrapped asset's `modified()` (constant across a
scenario with unchanged inputs), `exeModified` is `*EXE_MODIFIED`, and
`childGenerate` is the wrapped asset's side-effecting `generate()`. -/
def ModifiesPath.generate (childModified exeModified : Modified)
    (childGenerate : MPWorld → MPWorld) (w : MPWorld) : MPWorld :=
  let outputModified := pathModified w.outMtime
  if outputModified ≤ childModified ∨ outputModified ≤ exeModified then
    childGenerate w
  else
    w

/-- The canonical wrapped write asset: its `generate()` writes the output
path, so the path's mtime becomes the current time and the write counter
goes up by one. -/
def writeOut (w : MPWorld) : MPWorld :=
  { outMtime := some w.now, now := w.now, writes := w.writes + 1 }

/-- Advance the wall clock between two `generate()` calls (no other part
of the world changes). -/
def setNow (w : MPWorld) (n : Nat) : MPWorld :=
  { outMtime := w.outMtime, now := n, writes := w.writes }

/-! ## Watcher and debounce loop (`main.rs`)

The watcher callback drops pure-access events and `try_send`s a unit
signal into a capacity-1 channel; the main loop receives one signal,
then drains further signals until a 10 ms deadline, then calls the
orchestrator's `generate()` once. -/

/-- `notify::EventKind`; the callback only distinguishes `Access`. -/
inductive EventKind where
  | access : EventKind
  | create : EventKind
  | modifyKind : EventKind
  | remove : EventKind
  | other : EventKind
deriving DecidableEq, Repr

def EventKind.isAccess : EventKind → Bool
  | .access => true
  | _ => false

/-- A filesystem path, as a list of components, each component a byte
string (`List Nat`). -/
abbrev FsPathRepr : Type := List (List Nat)

/-- A raw `notify::Event`: when it fires and which paths it reports. -/
structure FsEvent where
  time : Nat
  kind : EventKind
  paths : List FsPathRepr
deriving DecidableEq

/-- The watcher callback, `main.rs` lines 105–124: access events are
dropped, every other event sends a unit rebuild signal (carrying only
its arrival time here). -/
def signalTimes (evs : List FsEvent) : List Nat :=
  (evs.filter (fun e => !e.kind.isAccess)).map (fun e => e.time)

/-- `Duration::from_millis(10)` — the debounce window. -/
def debounceMs : Nat := 10

/-- One iteration of the main loop, `main.rs` lines 133–142: the loop has
just received the first pending signal at time `r`; it then drains every
signal arriving up to the deadline `r + debounceMs` via
`recv_deadline`, and calls `asset.generate()` exactly once.  Returns the
number of `generate()` calls made together with the signals still
pending after the iteration. -/
def debounceIteration (r : Nat) (pending : List Nat) : Nat × List Nat :=
  (1, pending.filter (fun u => !(u ≤ r + debounceMs)))

/-! ## Development server (`server.rs`) -/

/-- `broadcast::channel(64)` in `Server::new` — the capacity of the
event broadcast buffer. -/
def broadcastCapacity : Nat := 64

/-- `Path::ends_with`: the watched path's components are a suffix of the
changed path's components (or the two are equal). -/
def pathEndsWith (changed watched : FsPathRepr) : Bool :=
  decide (watched.length ≤ changed.length) &&
    decide (changed.drop (changed.length - watched.length) = watched)

/-- The wake-up test in `respond_sse`:

```
event.paths.iter().any(|changed_path|
    paths.iter().any(|watched_path| changed_path.ends_with(watched_path)))
``` -/
def matchesAny (watched : List FsPathRepr) (changed : List FsPathRepr) : Bool :=
  changed.any (fun changedPath => watched.any (fun watchedPath => pathEndsWith changedPath watchedPath))

/-- What a client's broadcast receiver yields: a delivered event
(`Ok(event)`) or `RecvError::Lagged`.  The end of the list models
`RecvError::Closed` (server shutdown). -/
inductive RecvItem where
  | ev : List FsPathRepr → RecvItem
  | lagged : RecvItem

/-- The spawned per-client task of `respond_sse`, lines 119–144: loop on
`receiver.recv()`; a delivered event whose changed paths match a watched
path breaks the loop (and one reload event is then sent); a non-matching
event is ignored and the loop continues; `Lagged` breaks the loop (one
reload event is sent); `Closed` returns without sending.  The result is
the number of reload events written to this client's stream. -/
def sseTask (watched : List FsPathRepr) : List RecvItem → Nat
  | [] => 0
  | .ev changed :: rest =>
    if matchesAny watched changed then 1 else sseTask watched rest
  | .lagged :: _ => 1

/-! ## Request-path resolution (`Service::fs_path`, `server.rs` 191–225)

Request paths are byte strings (`List Nat`, the UTF-8 bytes of the URI
path).  Byte 37 is `%`, 46 is `.`, 47 is `/`, 92 is `\`. -/

/-- Value of an ASCII hex digit, as accepted by the percent decoder. -/
def hexVal (b : Nat) : Option Nat :=
  if 48 ≤ b ∧ b ≤ 57 then some (b - 48)
  else if 97 ≤ b ∧ b ≤ 102 then some (b - 97 + 10)
  else if 65 ≤ b ∧ b ≤ 70 then some (b - 65 + 10)
  else none

/-- `percent_encoding::percent_decode_str`: every valid `%XY` escape is
replaced by the byte `0xXY`; malformed escapes pass through verbatim.
Decoding itself never fails. -/
def percentDecode : List Nat → List Nat
  | [] => []
  | 37 :: h1 :: h2 :: rest =>
    match hexVal h1, hexVal h2 with
    | some d1, some d2 => (16 * d1 + d2) :: percentDecode rest
    | _, _ => 37 :: percentDecode (h1 :: h2 :: rest)
  | b :: rest => b :: percentDecode rest

/-- `0x80 ≤ b ≤ 0xBF` — a UTF-8 continuation byte. -/
def utf8Cont (b : Nat) : Bool :=
  decide (128 ≤ b ∧ b ≤ 191)

/-- `.decode_utf8().ok()?`: validity of a byte string as UTF-8 (the
decoded string's bytes are exactly the input bytes, so the later
per-character tests are performed on these bytes directly). -/
def utf8Valid : List Nat → Bool
  | [] => true
  | b :: rest =>
    if b ≤ 127 then utf8Valid rest
    else if 194 ≤ b ∧ b ≤ 223 then
      match rest with
      | b2 :: r => utf8Cont b2 && utf8Valid r
      | [] => false
    else if b = 224 then
      match rest with
      | b2 :: b3 :: r => decide (160 ≤ b2 ∧ b2 ≤ 191) && utf8Cont b3 && utf8Valid r
      | _ => false
    else if (225 ≤ b ∧ b ≤ 236) ∨ b = 238 ∨ b = 239 then
      match rest with
      | b2 :: b3 :: r => utf8Cont b2 && utf8Cont b3 && utf8Valid r
      | _ => false
    else if b = 237 then
      match rest with
      | b2 :: b3 :: r => decide (128 ≤ b2 ∧ b2 ≤ 159) && utf8Cont b3 && utf8Valid r
      | _ => false
    else if b = 240 then
      match rest with
      | b2 :: b3 :: b4 :: r =>
        decide (144 ≤ b2 ∧ b2 ≤ 191) && utf8Cont b3 && utf8Cont b4 && utf8Valid r
      | _ => false
    else if 241 ≤ b ∧ b ≤ 243 then
      match rest with
      | b2 :: b3 :: b4 :: r => utf8Cont b2 && utf8Cont b3 && utf8Cont b4 && utf8Valid r
      | _ => false
    else if b = 244 then
      match rest with
      | b2 :: b3 :: b4 :: r =>
        decide (128 ≤ b2 ∧ b2 ≤ 143) && utf8Cont b3 && utf8Cont b4 && utf8Valid r
      | _ => false
    else false

/-- `path.trim_start_matches('/')`. -/
def trimSlashes (raw : List Nat) : List Nat :=
  raw.dropWhile (fun b => b = 47)

/-- `decoded.split('/')` — `str::split` semantics: the empty string
yields one empty part, and every separator starts a new part. -/
def splitSlash : List Nat → List (List Nat)
  | [] => [[]]
  | b :: rest =>
    match splitSlash rest with
    | [] => [[]]
    | part :: parts =>
      if b = 47 then [] :: part :: parts else (b :: part) :: parts

/-- `part.starts_with('.')`. -/
def startsWithDot : List Nat → Bool
  | 46 :: _ => true
  | _ => false

/-- `path.push(part)`: a nonempty relative component is appended; pushing
the empty string adds no component. -/
def pushComponent (acc : FsPathRepr) (part : List Nat) : FsPathRepr :=
  if part = [] then acc else acc ++ [part]

/-- The rejection loop of `fs_path`:

```
for part in decoded.split('/') {
    if part.starts_with('.') || part.contains('\\') { return None; }
    path.push(part);
}
``` -/
def checkParts (acc : FsPathRepr) : List (List Nat) → Option FsPathRepr
  | [] => some acc
  | part :: rest =>
    if startsWithDot part || part.contains 92 then none
    else checkParts (pushComponent acc part) rest

/-- `path.starts_with(&*self.inner.path)` on component lists. -/
def startsWithPath (root p : FsPathRepr) : Bool :=
  decide (p.take root.length = root)

/-- `Path::extension()` of the built path: looks at the last component;
the extension is the part after the final `.`, and is absent when the
component has no `.` past its first byte. -/
def extensionOf (path : FsPathRepr) : Option (List Nat) :=
  match path.getLast? with
  | none => none
  | some [] => none
  | some (c :: rest) =>
    if rest.contains 46 then
      some ((((c :: rest).reverse.takeWhile (fun b => !(b = 46)))).reverse)
    else none

/-- `path.set_extension("html")` in the branch where `extension()` is
absent: the last component becomes `component ++ ".html"`
(bytes `46 104 116 109 108`). -/
def setExtHtml : FsPathRepr → FsPathRepr
  | [] => []
  | [name] => [name ++ [46, 104, 116, 109, 108]]
  | c :: rest => c :: setExtHtml rest

/-- `"index.html"` as a path component. -/
def indexHtmlComponent : List Nat := [105, 110, 100, 101, 120, 46, 104, 116, 109, 108]

/-- The filesystem, as far as `fs_path` observes it: `fs p` is `none`
when `fs::metadata(p)` fails with `NotFound` and `some isFile`
otherwise. -/
def FsModel : Type := FsPathRepr → Option Bool

/-- The `spawn_blocking` body of `fs_path`, `server.rs` 209–223:

```
let metadata = match fs::metadata(&*path) {
    Ok(metadata) if !metadata.is_file() => { path.push("index.html"); fs::metadata(&*path)? }
    Ok(metadata) => metadata,
    Err(e) if e.kind() == io::ErrorKind::NotFound && path.extension().is_none() => {
        path.set_extension("html"); fs::metadata(&*path)?
    }
    Err(e) => return Err(e),
};
Ok((path, metadata))
``` -/
def lookupPhase (fs : FsModel) (path : FsPathRepr) : Option FsPathRepr :=
  match fs path with
  | some isFile =>
    if isFile then some path
    else
      match fs (path ++ [indexHtmlComponent]) with
      | some _ => some (path ++ [indexHtmlComponent])
      | none => none
  | none =>
    if extensionOf path = none then
      match fs (setExtHtml path) with
      | some _ => some (setExtHtml path)
      | none => none
    else none

/-- `Service::fs_path` (`server.rs` 191–225): trim leading slashes,
percent-decode and validate UTF-8, reject traversal components, check
the root prefix, then resolve against the filesystem with the
`index.html` and `.html` fallbacks.  `none` is answered with a 404. -/
def fs_path (fs : FsModel) (root : FsPathRepr) (raw : List Nat) : Option FsPathRepr :=
  if utf8Valid (percentDecode (trimSlashes raw)) then
    match checkParts root (splitSlash (percentDecode (trimSlashes raw))) with
    | none => none
    | some path =>
      if startsWithPath root path then lookupPhase fs path else none
  else none

/-- A counting child asset for witnesses: `modified()` reports a fixed
`At t` and `generate()` bumps its own state, making every invocation of
the child observable. -/
def countingChild (t : Nat) : Asset Nat Nat where
  modified := fun s => (Modified.At t, s)
  generate := fun s => (s, s + 1)

/-! Concrete fixtures for the `fs_path` theorems. -/

/-- The default output root component, `"dist"`. -/
def distComponent : List Nat := [100, 105, 115, 116]

/-- `"dist.html"` — the root's sibling produced by `set_extension`. -/
def distHtmlComponent : List Nat := [100, 105, 115, 116, 46, 104, 116, 109, 108]

/-- `"a.html"`. -/
def aHtmlComponent : List Nat := [97, 46, 104, 116, 109, 108]

/-- A filesystem with the root directory present, containing
`index.html` and `a.html`. -/
def fsWithRoot : FsModel := fun p =>
  if p = [distComponent] then some false
  else if p = [distComponent, indexHtmlComponent] then some true
  else if p = [distComponent, aHtmlComponent] then some true
  else none

/-- A filesystem where the output root `dist` is absent but a sibling
file `dist.html` exists. -/
def fsRootAbsent : FsModel := fun p =>
  if p = [distHtmlComponent] then some true else none

/-- The bytes of the request path `/%2E%2E/etc/passwd`. -/
def trickyRequest : List Nat :=
  [47, 37, 50, 69, 37, 50, 69, 47, 101, 116, 99, 47, 112, 97, 115, 115, 119, 100]

/-- The bytes of the request path `/a.html`. -/
def plainRequest : List Nat := [47, 97, 46, 104, 116, 109, 108]

/-! # Theorems -/

/-- C8: `Modified` is totally ordered with `Never` strictly below every
`At t`, `At t1 < At t2` iff `t1 < t2`; `max` returns the later of its two
arguments and `Never` is an identity for `max`. -/
theorem modified_total_order :
    (∀ a b : Modified, a ≤ b ∨ b ≤ a) ∧
    (∀ a b : Modified, a ≤ b → b ≤ a → a = b) ∧
    (∀ a b c : Modified, a ≤ b → b ≤ c → a ≤ c) ∧
    (∀ a b : Modified, a < b ↔ a ≤ b ∧ ¬ b ≤ a) ∧
    (∀ t : Nat, Modified.Never < Modified.At t) ∧
    (∀ t1 t2 : Nat, Modified.At t1 < Modified.At t2 ↔ t1 < t2) ∧
    (∀ a b : Modified, Modified.max a b = a ∨ Modified.max a b = b) ∧
    (∀ a b : Modified, a ≤ Modified.max a b ∧ b ≤ Modified.max a b) ∧
    (∀ x : Modified, Modified.max Modified.Never x = x ∧ Modified.max x Modified.Never = x) := by
  refine ⟨Modified.le_total, fun a b => Modified.le_antisymm,
    fun a b c => Modified.le_trans, fun a b => Modified.lt_iff, ?_, ?_,
    Modified.max_choice, fun a b => ⟨Modified.le_max_left a b, Modified.le_max_right a b⟩,
    fun x => ⟨Modified.max_never_left x, Modified.max_never_right x⟩⟩
  · intro t
    exact trivial
  · intro t1 t2
    exact Iff.rfl

/-- Witness for C8 at concrete values. -/
theorem modified_total_order_witness :
    (Modified.Never ≤ Modified.At 3 ∨ Modified.At 3 ≤ Modified.Never) ∧
    Modified.At 2 = Modified.At 2 ∧
    Modified.Never ≤ Modified.At 7 ∧
    Modified.Never < Modified.At 0 ∧
    (Modified.At 1 < Modified.At 4 ↔ 1 < 4) ∧
    Modified.max Modified.Never (Modified.At 5) = Modified.At 5 :=
  ⟨modified_total_order.1 Modified.Never (Modified.At 3),
    modified_total_order.2.1 (Modified.At 2) (Modified.At 2) (by decide) (by decide),
    modified_total_order.2.2.1 Modified.Never (Modified.At 1) (Modified.At 7)
      (by decide) (by decide),
    modified_total_order.2.2.2.2.1 0,
    modified_total_order.2.2.2.2.2.1 1 4,
    (modified_total_order.2.2.2.2.2.2.2.2 (Modified.At 5)).1⟩

/-- C5: for every `Flatten` node, `modified()` is
`max(asset.modified(), asset.generate().modified())` under the `Modified`
total order (so it is an upper bound of both), and `generate()` is
`asset.generate().generate()` — build the inner sub-graph, then run it.
States are threaded in Rust's evaluation order. -/
theorem flatten_modified_generate (a : Asset σ (Asset σ β)) (s : σ) :
    ((Flatten a).modified s).1 =
      Modified.max (a.modified s).1
        (((a.generate (a.modified s).2).1.modified (a.generate (a.modified s).2).2).1) ∧
    (a.modified s).1 ≤ ((Flatten a).modified s).1 ∧
    (((a.generate (a.modified s).2).1.modified (a.generate (a.modified s).2).2).1) ≤
      ((Flatten a).modified s).1 ∧
    (Flatten a).generate s = (a.generate s).1.generate (a.generate s).2 := by
  refine ⟨rfl, ?_, ?_, rfl⟩
  · exact Modified.le_max_left _ _
  · exact Modified.le_max_right _ _

/-- C3: after every call to `Cache::generate`, the cache cell holds a
pair `(m, o)` where `o` is the value the call returned and `m` is at
least the child's `modified()` as sampled at the start of the call. -/
theorem cache_cell_invariant (a : Asset σ α) (sc : σ × Option (Modified × α)) :
    ∃ m : Modified,
      ((Cache a).generate sc).2.2 = some (m, ((Cache a).generate sc).1) ∧
      (a.modified sc.1).1 ≤ m := by
  rcases sc with ⟨s, c⟩
  cases c with
  | none =>
    exact ⟨(a.modified s).1, rfl, Modified.le_refl _⟩
  | some lo =>
    by_cases h : (a.modified s).1 ≤ lo.1
    · refine ⟨lo.1, ?_, h⟩
      simp [Cache, h]
    · refine ⟨(a.modified s).1, ?_, Modified.le_refl _⟩
      simp [Cache, h]

/-- C2: two successive `Cache::generate` calls.  The first call (from any
starting cell) leaves the cell holding `(m1, o1)` with `o1` the returned
output; if at the second call the child's `modified()` has not advanced
past `m1`, the child's `generate()` is not invoked (the child's state is
touched only by the `modified()` probe) and the cached `o1` is returned;
if `m1` is older than the child's current `modified()`, the child's
`generate()` is invoked and its fresh output is returned. -/
theorem cache_successive_calls (a : Asset σ α) (s s2 : σ) (c : Option (Modified × α))
    (m1 : Modified)
    (h1 : ((Cache a).generate (s, c)).2.2 = some (m1, ((Cache a).generate (s, c)).1)) :
    ((a.modified s2).1 ≤ m1 →
      (Cache a).generate (s2, ((Cache a).generate (s, c)).2.2) =
        (((Cache a).generate (s, c)).1,
          ((a.modified s2).2, some (m1, ((Cache a).generate (s, c)).1)))) ∧
    (m1 < (a.modified s2).1 →
      (Cache a).generate (s2, ((Cache a).generate (s, c)).2.2) =
        ((a.generate (a.modified s2).2).1,
          ((a.generate (a.modified s2).2).2,
            some ((a.modified s2).1, (a.generate (a.modified s2).2).1)))) := by
  rw [h1]
  constructor
  · intro hle
    simp [Cache, hle]
  · intro hlt
    have hnle : ¬ (a.modified s2).1 ≤ m1 := Modified.not_le.mpr hlt
    simp [Cache, hnle]

/-- Witness for C2: a counting child asset (its `generate` bumps its own
state).  From an empty cell the first call runs the child once and caches
`(At 0, 0)`; the second call, with the child's `modified()` still `At 0`,
returns the cached `0` and leaves the child state untouched at `5`. -/
theorem cache_successive_calls_witness :
    (Cache (countingChild 0)).generate
        (5, ((Cache (countingChild 0)).generate (0, none)).2.2) =
      (0, (5, some (Modified.At 0, 0))) :=
  (cache_successive_calls (countingChild 0) 0 5 none (Modified.At 0) (by decide)).1 (by decide)

/-- C9: if the child's `modified()` moves backwards (or stays put)
relative to the stored timestamp, `Cache::generate` keeps and returns
the previously cached output without invoking the child's `generate()`;
only a `modified()` strictly past the stored timestamp triggers
recomputation. -/
theorem cache_backwards_clock (a : Asset σ α) (s2 : σ) (m : Modified) (o : α) :
    ((a.modified s2).1 ≤ m →
      (Cache a).generate (s2, some (m, o)) = (o, ((a.modified s2).2, some (m, o)))) ∧
    (m < (a.modified s2).1 →
      (Cache a).generate (s2, some (m, o)) =
        ((a.generate (a.modified s2).2).1,
          ((a.generate (a.modified s2).2).2,
            some ((a.modified s2).1, (a.generate (a.modified s2).2).1)))) := by
  constructor
  · intro hle
    simp [Cache, hle]
  · intro hlt
    have hnle : ¬ (a.modified s2).1 ≤ m := Modified.not_le.mpr hlt
    simp [Cache, hnle]

/-- Witness for C9: the counting child now reports `modified() = At 3`
while the cell holds the newer stamp `At 7` (the clock moved backwards):
the stale-looking cell is kept, the cached `42` is returned, and the
child is not run (its state stays `5`). -/
theorem cache_backwards_clock_witness :
    (Cache (countingChild 3)).generate (5, some (Modified.At 7, 42)) =
      (42, (5, some (Modified.At 7, 42))) :=
  (cache_backwards_clock (countingChild 3) 5 (Modified.At 7) 42).1 (by decide)

/-- C1 (amended): for the live `ModifiesPath` node wrapping the write
asset, (i) a missing output path always triggers the write, (ii) the
write is performed exactly when the wrapped asset's `modified()` or the
executable's build time is **at least as new as** (`>=`, not strictly
newer than) the output path's mtime, with an absent output counted as
`Never`, (iii) otherwise the world is untouched, and (iv) if the first
call's write stamp is strictly newer than both inputs, a second call
with unchanged inputs is the identity: no second write, and the output's
mtime is unchanged — two calls in a row perform exactly one write. -/
theorem modifies_path_write_skip (cm exe : Modified) (w : MPWorld) :
    (w.outMtime = none →
      ModifiesPath.generate cm exe writeOut w = writeOut w) ∧
    ((pathModified w.outMtime ≤ cm ∨ pathModified w.outMtime ≤ exe) ↔
      (ModifiesPath.generate cm exe writeOut w).writes = w.writes + 1) ∧
    (¬ (pathModified w.outMtime ≤ cm ∨ pathModified w.outMtime ≤ exe) →
      ModifiesPath.generate cm exe writeOut w = w) ∧
    (cm < Modified.At w.now → exe < Modified.At w.now → ∀ n2 : Nat,
      ModifiesPath.generate cm exe writeOut
          (setNow (ModifiesPath.generate cm exe writeOut w) n2) =
        setNow (ModifiesPath.generate cm exe writeOut w) n2) := by
  refine ⟨?_, ⟨?_, ?_⟩, ?_, ?_⟩
  · intro hnone
    have hg : pathModified w.outMtime ≤ cm := by
      rw [hnone]
      exact Modified.never_le cm
    simp [ModifiesPath.generate, hg]
  · intro hguard
    simp [ModifiesPath.generate, hguard, writeOut]
  · intro hwrites
    by_cases hguard : pathModified w.outMtime ≤ cm ∨ pathModified w.outMtime ≤ exe
    · exact hguard
    · exfalso
      simp only [ModifiesPath.generate, if_neg hguard] at hwrites
      omega
  · intro hguard
    simp only [ModifiesPath.generate, if_neg hguard]
  · intro hcm hexe n2
    by_cases hguard : pathModified w.outMtime ≤ cm ∨ pathModified w.outMtime ≤ exe
    · have hres : ModifiesPath.generate cm exe writeOut w = writeOut w := by
        simp only [ModifiesPath.generate, if_pos hguard]
      rw [hres]
      have hg2 : ¬ (pathModified (setNow (writeOut w) n2).outMtime ≤ cm ∨
          pathModified (setNow (writeOut w) n2).outMtime ≤ exe) := by
        push_neg
        exact ⟨Modified.not_le.mpr hcm, Modified.not_le.mpr hexe⟩
      simp only [ModifiesPath.generate, if_neg hg2]
    · have hres : ModifiesPath.generate cm exe writeOut w = w := by
        simp only [ModifiesPath.generate, if_neg hguard]
      rw [hres]
      have hg2 : ¬ (pathModified (setNow w n2).outMtime ≤ cm ∨
          pathModified (setNow w n2).outMtime ≤ exe) := hguard
      simp only [ModifiesPath.generate, if_neg hg2]

/-- Witness for C1 (amended): output absent, child modified `At 0`, exe
build time `At 1`, write stamped at time `5`; the first call writes,
the second call (at wall time `7`) is the identity. -/
theorem modifies_path_write_skip_witness :
    ModifiesPath.generate (Modified.At 0) (Modified.At 1) writeOut
        { outMtime := none, now := 5, writes := 0 } =
      writeOut { outMtime := none, now := 5, writes := 0 } ∧
    ModifiesPath.generate (Modified.At 0) (Modified.At 1) writeOut
        (setNow (ModifiesPath.generate (Modified.At 0) (Modified.At 1) writeOut
          { outMtime := none, now := 5, writes := 0 }) 7) =
      setNow (ModifiesPath.generate (Modified.At 0) (Modified.At 1) writeOut
        { outMtime := none, now := 5, writes := 0 }) 7 :=
  ⟨(modifies_path_write_skip (Modified.At 0) (Modified.At 1)
      { outMtime := none, now := 5, writes := 0 }).1 rfl,
    (modifies_path_write_skip (Modified.At 0) (Modified.At 1)
      { outMtime := none, now := 5, writes := 0 }).2.2.2 (by decide) (by decide) 7⟩

/-- Counterexample to C1 as stated: with the output present at mtime `5`,
the wrapped asset's `modified()` equal to that mtime (`At 5`, not
strictly newer) and the executable older (`At 3`, not strictly newer),
the live `ModifiesPath::generate` still performs the write: the guard
uses `>=`, not `>`. -/
theorem modifies_path_strict_counterexample :
    (ModifiesPath.generate (Modified.At 5) (Modified.At 3) writeOut
        { outMtime := some 5, now := 9, writes := 0 }).writes = 1 ∧
    ¬ pathModified (some 5) < Modified.At 5 ∧
    ¬ pathModified (some 5) < Modified.At 3 := by
  decide

/-- C6: for a burst of non-access filesystem events in which every event
arrives within the 10 ms debounce window starting at the time `r` when
the main loop received the first signal, the loop iteration drains every
pending signal (whatever subset of them survived the capacity-1
channel's `try_send` coalescing) and invokes the orchestrator's
`generate()` exactly once, leaving nothing pending. -/
theorem debounce_single_rebuild (evs : List FsEvent) (pending : List Nat) (r : Nat)
    (hne : evs ≠ [])
    (hna : ∀ e ∈ evs, e.kind.isAccess = false)
    (hsub : pending.Sublist (signalTimes evs))
    (hwin : ∀ e ∈ evs, e.time ≤ r + debounceMs) :
    debounceIteration r pending = (1, []) ∧ signalTimes evs ≠ [] := by
  constructor
  · unfold debounceIteration
    have hfilter : pending.filter (fun u => !(u ≤ r + debounceMs)) = [] := by
      rw [List.filter_eq_nil]
      intro u hu
      have humem : u ∈ signalTimes evs := hsub.subset hu
      unfold signalTimes at humem
      rw [List.mem_map] at humem
      obtain ⟨e, he, rfl⟩ := humem
      have := hwin e (List.mem_of_mem_filter he)
      simp [this]
    rw [hfilter]
  · cases evs with
    | nil => exact absurd rfl hne
    | cons e rest =>
      unfold signalTimes
      have : e ∈ List.filter (fun e => !e.kind.isAccess) (e :: rest) := by
        rw [List.mem_filter]
        exact ⟨List.mem_cons_self e rest, by simp [hna e (List.mem_cons_self e rest)]⟩
      intro hmap
      rw [List.map_eq_nil] at hmap
      rw [hmap] at this
      exact absurd this (List.not_mem_nil e)

/-- Witness for C6: five rapid events (times 0–4, mixed non-access
kinds), received at time 0 — one rebuild, nothing left pending. -/
theorem debounce_single_rebuild_witness :
    debounceIteration 0
        (signalTimes
          [⟨0, EventKind.create, []⟩, ⟨1, EventKind.modifyKind, []⟩,
            ⟨2, EventKind.remove, []⟩, ⟨3, EventKind.other, []⟩,
            ⟨4, EventKind.modifyKind, []⟩]) = (1, []) :=
  (debounce_single_rebuild
    [⟨0, EventKind.create, []⟩, ⟨1, EventKind.modifyKind, []⟩,
      ⟨2, EventKind.remove, []⟩, ⟨3, EventKind.other, []⟩,
      ⟨4, EventKind.modifyKind, []⟩]
    (signalTimes
      [⟨0, EventKind.create, []⟩, ⟨1, EventKind.modifyKind, []⟩,
        ⟨2, EventKind.remove, []⟩, ⟨3, EventKind.other, []⟩,
        ⟨4, EventKind.modifyKind, []⟩])
    0 (by decide) (by decide) (List.Sublist.refl _) (by decide)).1

/-- C7: a `/watch` client is sent exactly one reload event when a
delivered notification has a changed path matching one of its declared
resolved paths by suffix (or exactly) — whatever is delivered afterwards
is never read, the stream ends; and a client none of whose declared
paths match any delivered change is never woken (zero reload events).
Each client's task depends only on its own declared paths and its own
receiver, so clients watching different paths do not interfere. -/
theorem sseTask_nonmatching (watched : List FsPathRepr) :
    ∀ items : List RecvItem,
      (∀ i ∈ items, ∃ c, i = RecvItem.ev c ∧ matchesAny watched c = false) →
      sseTask watched items = 0 := by
  intro items
  induction items with
  | nil => intro _; rfl
  | cons i items ih =>
    intro hitems
    obtain ⟨c, rfl, hc⟩ := hitems i (List.mem_cons_self i items)
    have : sseTask watched (RecvItem.ev c :: items) = sseTask watched items := by
      simp [sseTask, hc]
    rw [this]
    exact ih fun j hj => hitems j (List.mem_cons_of_mem _ hj)

theorem sseTask_first_match (watched : List FsPathRepr) :
    ∀ pre : List RecvItem, ∀ changed : List FsPathRepr, ∀ rest : List RecvItem,
      (∀ i ∈ pre, ∃ c, i = RecvItem.ev c ∧ matchesAny watched c = false) →
      matchesAny watched changed = true →
      sseTask watched (pre ++ RecvItem.ev changed :: rest) = 1 := by
  intro pre
  induction pre with
  | nil =>
    intro changed rest _ hmatch
    simp [sseTask, hmatch]
  | cons i pre ih =>
    intro changed rest hpre hmatch
    obtain ⟨c, rfl, hc⟩ := hpre i (List.mem_cons_self i pre)
    have : sseTask watched ((RecvItem.ev c :: pre) ++ RecvItem.ev changed :: rest) =
        sseTask watched (pre ++ RecvItem.ev changed :: rest) := by
      simp [sseTask, hc]
    rw [this]
    exact ih changed rest (fun j hj => hpre j (List.mem_cons_of_mem _ hj)) hmatch

/-- C7: a `/watch` client is sent exactly one reload event when a
delivered notification has a changed path matching one of its declared
resolved paths by suffix (or exactly) — whatever is delivered afterwards
is never read, the stream ends; and a client none of whose declared
paths match any delivered change is never woken (zero reload events).
Each client's task depends only on its own declared paths and its own
receiver, so clients watching different paths do not interfere. -/
theorem sse_reload_targeting (watched : List FsPathRepr) (pre rest : List RecvItem)
    (changed : List FsPathRepr)
    (hpre : ∀ i ∈ pre, ∃ c, i = RecvItem.ev c ∧ matchesAny watched c = false)
    (hmatch : matchesAny watched changed = true) :
    sseTask watched (pre ++ RecvItem.ev changed :: rest) = 1 ∧
    (∀ items : List RecvItem,
      (∀ i ∈ items, ∃ c, i = RecvItem.ev c ∧ matchesAny watched c = false) →
      sseTask watched items = 0) :=
  ⟨sseTask_first_match watched pre changed rest hpre hmatch,
    sseTask_nonmatching watched⟩

/-- Witness for C7: a client watching path component `[97]` (`a`) gets
exactly one reload from a change to `.../a`, while a client watching
`[98]` (`b`) is not woken by that same stream. -/
theorem sse_reload_targeting_witness :
    sseTask [[[97]]] ([] ++ RecvItem.ev [[[99], [97]]] :: []) = 1 ∧
    sseTask [[[98]]] [RecvItem.ev [[[99], [97]]]] = 0 :=
  ⟨(sse_reload_targeting [[[97]]] [] [] [[[99], [97]]] (by simp) (by decide)).1,
    (sse_reload_targeting [[[98]]] [] [] [[[98]]] (by simp) (by decide)).2
      [RecvItem.ev [[[99], [97]]]]
      (by
        intro i hi
        rw [List.mem_singleton] at hi
        exact ⟨[[[99], [97]]], hi, by decide⟩)⟩

/-- C10: a lagging receiver (`RecvError::Lagged`, which the 64-entry
broadcast buffer reports once more events were sent than it can hold)
makes the task send a reload even though no watched path changed, while
a closed channel makes the task exit without sending anything. -/
theorem sse_lag_and_close (watched : List FsPathRepr) (rest : List RecvItem) :
    sseTask watched (RecvItem.lagged :: rest) = 1 ∧
    sseTask watched [] = 0 ∧
    broadcastCapacity = 64 :=
  ⟨rfl, rfl, rfl⟩

theorem checkParts_under :
    ∀ (parts : List (List Nat)) (acc p : FsPathRepr),
      checkParts acc parts = some p → ∃ rest, p = acc ++ rest := by
  intro parts
  induction parts with
  | nil =>
    intro acc p h
    simp only [checkParts, Option.some.injEq] at h
    exact ⟨[], by simp [h]⟩
  | cons part parts ih =>
    intro acc p h
    simp only [checkParts] at h
    split at h
    · exact absurd h (by simp)
    · obtain ⟨rest, hr⟩ := ih _ _ h
      unfold pushComponent at hr
      by_cases hp : part = []
      · rw [if_pos hp] at hr
        exact ⟨rest, hr⟩
      · rw [if_neg hp] at hr
        exact ⟨[part] ++ rest, by simp [hr]⟩

theorem checkParts_reject :
    ∀ (parts : List (List Nat)) (acc : FsPathRepr),
      parts.any (fun part => startsWithDot part || part.contains 92) = true →
      checkParts acc parts = none := by
  intro parts
  induction parts with
  | nil =>
    intro acc h
    simp at h
  | cons part parts ih =>
    intro acc h
    simp only [List.any_cons, Bool.or_eq_true] at h
    simp only [checkParts]
    by_cases hb : (startsWithDot part || part.contains 92) = true
    · rw [if_pos hb]
    · rw [if_neg hb]
      rw [Bool.or_eq_true] at hb
      rcases h with h1 | h2
      · exact absurd h1 hb
      · exact ih _ h2

theorem setExtHtml_append :
    ∀ (pre suf : FsPathRepr), suf ≠ [] →
      setExtHtml (pre ++ suf) = pre ++ setExtHtml suf := by
  intro pre
  induction pre with
  | nil =>
    intro suf _
    simp
  | cons c pre ih =>
    intro suf hs
    have hne : pre ++ suf ≠ [] := by
      simp only [ne_eq, List.append_eq_nil]
      intro hcon
      exact hs hcon.2
    cases hpp : pre ++ suf with
    | nil => exact absurd hpp hne
    | cons x xs =>
      have step : setExtHtml (c :: x :: xs) = c :: setExtHtml (x :: xs) := by
        simp [setExtHtml]
      calc setExtHtml ((c :: pre) ++ suf) = setExtHtml (c :: (pre ++ suf)) := by simp
        _ = setExtHtml (c :: x :: xs) := by rw [hpp]
        _ = c :: setExtHtml (x :: xs) := step
        _ = c :: setExtHtml (pre ++ suf) := by rw [hpp]
        _ = c :: (pre ++ setExtHtml suf) := by rw [ih suf hs]
        _ = (c :: pre) ++ setExtHtml suf := by simp

theorem lookupPhase_under (fs : FsModel) (root : FsPathRepr) (hroot : fs root ≠ none) :
    ∀ (rest p : FsPathRepr),
      lookupPhase fs (root ++ rest) = some p → ∃ r2, p = root ++ r2 := by
  intro rest p h
  unfold lookupPhase at h
  split at h
  next isFile heq =>
    split at h
    next =>
      rw [Option.some.injEq] at h
      exact ⟨rest, h.symm⟩
    next =>
      split at h
      next =>
        rw [Option.some.injEq] at h
        exact ⟨rest ++ [indexHtmlComponent], by rw [← h]; simp⟩
      next => exact absurd h (by simp)
  next heq =>
    have hrest : rest ≠ [] := by
      intro he
      rw [he, List.append_nil] at heq
      exact hroot heq
    split at h
    next =>
      split at h
      next =>
        rw [Option.some.injEq] at h
        refine ⟨setExtHtml rest, ?_⟩
        rw [← h, setExtHtml_append root rest hrest]
      next => exact absurd h (by simp)
    next => exact absurd h (by simp)

/-- C4 (amended): provided the output root itself is present on the
filesystem, `fs_path` either returns `none` (answered with a 404) or a
path that lies under the configured output root; and unconditionally,
any percent-decoded request containing a component that starts with `.`
(including `..`, however percent-encoded) or containing a backslash is
rejected with `none`.  (When the root is absent and the decoded request
has only empty components, the `.html` fallback can return the root's
sibling `<root>.html` — the corner the counterexample exhibits.) -/
theorem fs_path_confinement (fs : FsModel) (root : FsPathRepr) (raw : List Nat) :
    (fs root ≠ none →
      ∀ p, fs_path fs root raw = some p → ∃ rest, p = root ++ rest) ∧
    ((splitSlash (percentDecode (trimSlashes raw))).any
        (fun part => startsWithDot part || part.contains 92) = true →
      fs_path fs root raw = none) := by
  constructor
  · intro hroot p h
    unfold fs_path at h
    split at h
    · split at h
      next heq => exact absurd h (by simp)
      next path heq =>
        split at h
        · obtain ⟨rest, hrest⟩ := checkParts_under _ _ _ heq
          subst hrest
          exact lookupPhase_under fs root hroot rest p h
        · exact absurd h (by simp)
    · exact absurd h (by simp)
  · intro hbad
    unfold fs_path
    split
    · rw [checkParts_reject _ _ hbad]
    · rfl

/-- Witness for C4 (amended): with the root directory present, the
traversal request `/%2E%2E/etc/passwd` resolves to `none`, and the plain
request `/a.html` resolves to a path under the root. -/
theorem fs_path_confinement_witness :
    fs_path fsWithRoot [distComponent] trickyRequest = none ∧
    ∃ rest, [distComponent, aHtmlComponent] = [distComponent] ++ rest :=
  ⟨(fs_path_confinement fsWithRoot [distComponent] trickyRequest).2 (by decide),
    (fs_path_confinement fsWithRoot [distComponent] plainRequest).1 (by decide)
      [distComponent, aHtmlComponent] (by decide)⟩

/-- Counterexample to C4 as stated: with the output root `dist` absent
and a sibling file `dist.html` present, the request `/` resolves to
`dist.html`, which does not lie under the output root (the code's own
`starts_with` test fails on it): the `set_extension("html")` fallback
runs after the containment check. -/
theorem fs_path_escape_counterexample :
    fs_path fsRootAbsent [distComponent] [47] = some [distHtmlComponent] ∧
    startsWithPath [distComponent] [distHtmlComponent] = false := by
  decide
